import Mathlib

/-
Verification development for the chunking / contextual-retrieval core of the
vf_knowledgeflow repository.

Shallow embedding of:
  - src/content_processor.py   : ContentProcessor.manual_chunk,
                                 ContentProcessor.semantic_chunk,
                                 ContentProcessor.paragraph_chunk
  - src/contextual_vector_db.py: ContextualVectorDB.__init__, embed_texts,
                                 load_chunks, search, rerank_results,
                                 save_db, load_db

Modelling conventions:
  - Embedding vectors are idealized as lists of integers (`Vec`); the Gemini
    embedding service is an external oracle and appears as an explicit
    function parameter `embedF / embedQ : String → Vec`.  Similarity is the
    dot product, exactly as `np.dot(self.embeddings, query_embedding)`.
  - The tiktoken token counter is an external dependency; it appears as an
    explicit parameter `tok : String → Nat`.  Likewise nltk's
    `sent_tokenize` and the `re.split` section splitter are external, so the
    chunking loops are embedded as functions of the resulting unit lists
    (sentences respectively sections), which quantifies over every possible
    input text.
  - A chunk produced by the chunkers keeps its buffer as the list of units
    (`parts`); the Python dict stores the joined text (' '.join /
    ''.join / '\n\n'.join of the same buffer) plus derived preview fields.
  - `np.argsort` is modelled as the ascending sort of indices ordered
    lexicographically by (value, index) — i.e. index-ascending on ties,
    which matches numpy for small arrays and for kind='stable'.
  - The pickle file system is a map from paths to file contents; a crashed
    write leaves a `truncated` file, since `open(path, "wb")` truncates
    the destination in place before `pickle.dump` runs.
-/

namespace VFKnowledgeFlow

/-! ### Basic data model -/

/-- An embedding vector (idealized with integer components). -/
abbrev Vec := List Int

/-- Dot-product similarity, as used by `np.dot` in `ContextualVectorDB.search`. -/
def dot (a b : Vec) : Int := (List.zipWith (fun x y => x * y) a b).sum

/-- The token-usage counters of `ContextualVectorDB.__init__`
(`self.token_counts`). -/
structure TokenCounts where
  input : Nat
  output : Nat
  cache_read : Nat
  cache_creation : Nat
deriving Repr, DecidableEq, Inhabited

/-- Pointwise sum of token counters (the accumulation performed under
`self.token_lock` during context generation). -/
def addTC (a b : TokenCounts) : TokenCounts :=
  ⟨a.input + b.input, a.output + b.output,
   a.cache_read + b.cache_read, a.cache_creation + b.cache_creation⟩

/-- A chunk dictionary as produced by `ContentProcessor` and consumed by
`ContextualVectorDB.load_chunks`: keys `id`, `text`, `tokens`,
`start_sentence`, `type`. -/
structure Chunk where
  id : Nat
  text : String
  tokens : Nat
  start_sentence : String
  ctype : String
deriving Repr, DecidableEq, Inhabited

/-- A metadata record stored by `load_chunks`: the spread of the original
chunk dict (`**chunk`) plus the provenance fields `original_content`,
`context`, `contextualized_content`. -/
structure ChunkMeta where
  chunk : Chunk
  original_content : String
  context : String
  contextualized_content : String
deriving Repr, DecidableEq, Inhabited

/-- One entry of the list returned by `ContextualVectorDB.search` /
`rerank_results`.  `rerank_score` is `none` unless reranking added it. -/
structure SearchResult where
  metadata : ChunkMeta
  similarity : Int
  rerank_score : Option Int
deriving Repr, DecidableEq, Inhabited

/-- The dictionary pickled by `save_db`. -/
structure DBData where
  embeddings : List Vec
  metadata : List ChunkMeta
  query_cache : List (String × Vec)
  token_counts : TokenCounts
deriving Repr, DecidableEq, Inhabited

/-- Contents of the snapshot file at `db_path`: either a complete pickled
snapshot or the debris of a write that failed after `open(path, "wb")`
truncated the file. -/
inductive FileContent where
  | snapshot (d : DBData)
  | truncated
deriving Repr, DecidableEq, Inhabited

/-- The file system visible to `save_db` / `load_db`. -/
def FS := String → Option FileContent

/-- Functional update of the file system at one path. -/
def setFile (fs : FS) (p : String) (c : FileContent) : FS :=
  fun q => if q = p then some c else fs q

/-- In-memory state of a `ContextualVectorDB` instance (the mutable fields
set in `__init__`; API clients are external oracles and not state). -/
structure ContextualVectorDB where
  name : String
  embeddings : List Vec
  metadata : List ChunkMeta
  query_cache : List (String × Vec)
  token_counts : TokenCounts
deriving Repr, DecidableEq, Inhabited

/-- `self.db_path = f"./data/{name}/contextual_vector_db.pkl"`. -/
def db_path (name : String) : String :=
  "./data/" ++ name ++ "/contextual_vector_db.pkl"

/-- A freshly constructed store (`ContextualVectorDB(name)`). -/
def initDB (name : String) : ContextualVectorDB :=
  { name := name, embeddings := [], metadata := [], query_cache := [],
    token_counts := ⟨0, 0, 0, 0⟩ }

/-! ### Chunker (src/content_processor.py) -/

/-- A chunk under construction/emission: `id` is the running `chunk_id`,
`parts` the buffer `current_chunk` at emission (the Python dict stores the
joined text of this buffer), `tokens` the running `current_tokens` at
emission. -/
structure TChunk where
  id : Nat
  parts : List String
  tokens : Nat
deriving Repr, DecidableEq, Inhabited

/-- The overlap-selection loop of `manual_chunk`: walk `reversed(current_chunk)`
and keep taking sentences while `overlap_token_count + sent_tokens <=
overlap_tokens`, inserting each kept sentence at the front; stop at the first
sentence that does not fit.  The first list argument is
`current_chunk.reverse`; `cnt` is the running `overlap_token_count`. -/
def overlapGo (tok : String → Nat) (lim : Nat) : List String → Nat → List String × Nat
  | [], cnt => ([], cnt)
  | s :: rest, cnt =>
    if cnt + tok s ≤ lim then
      let r := overlapGo tok lim rest (cnt + tok s)
      (r.1 ++ [s], r.2)
    else ([], cnt)

/-- `(overlap_chunk, overlap_token_count)` computed from a flushed buffer. -/
def overlapOf (tok : String → Nat) (lim : Nat) (cur : List String) : List String × Nat :=
  overlapGo tok lim cur.reverse 0

/-- The sentence loop of `ContentProcessor.manual_chunk`.  Arguments:
remaining sentences, `current_chunk`, `current_tokens`, `chunk_id`.  A flush
happens when adding the next sentence would exceed `max_tokens` and the
buffer is non-empty; with `overlap_tokens > 0` the fresh buffer is seeded
with the trailing sentences of the flushed buffer, else it restarts empty.
The final non-empty buffer is emitted once input is exhausted. -/
def manualChunkLoop (tok : String → Nat) (maxT ovT : Nat) :
    List String → List String → Nat → Nat → List TChunk
  | [], cur, curT, cid => if cur = [] then [] else [⟨cid, cur, curT⟩]
  | s :: rest, cur, curT, cid =>
    if maxT < curT + tok s ∧ cur ≠ [] then
      let ov := if 0 < ovT then overlapOf tok ovT cur else ([], 0)
      ⟨cid, cur, curT⟩ ::
        manualChunkLoop tok maxT ovT rest (ov.1 ++ [s]) (ov.2 + tok s) (cid + 1)
    else
      manualChunkLoop tok maxT ovT rest (cur ++ [s]) (curT + tok s) cid

/-- `ContentProcessor.manual_chunk`, as a function of the sentence list
produced by the external `nltk.sent_tokenize(text)`. -/
def manual_chunk (tok : String → Nat) (maxT ovT : Nat) (sents : List String) : List TChunk :=
  manualChunkLoop tok maxT ovT sents [] 0 0

/-- The section loop of `ContentProcessor.semantic_chunk`: sections whose
`strip()` is empty are skipped (`continue`); otherwise accumulate-then-flush
with no overlap. -/
def semanticChunkLoop (tok : String → Nat) (maxT : Nat) :
    List String → List String → Nat → Nat → List TChunk
  | [], cur, curT, cid => if cur = [] then [] else [⟨cid, cur, curT⟩]
  | sec :: rest, cur, curT, cid =>
    if sec.trim = "" then semanticChunkLoop tok maxT rest cur curT cid
    else if maxT < curT + tok sec ∧ cur ≠ [] then
      ⟨cid, cur, curT⟩ :: semanticChunkLoop tok maxT rest [sec] (tok sec) (cid + 1)
    else semanticChunkLoop tok maxT rest (cur ++ [sec]) (curT + tok sec) cid

/-- `ContentProcessor.semantic_chunk`, as a function of the section list
produced by the external `re.split` over the boundary-marker pattern. -/
def semantic_chunk (tok : String → Nat) (maxT : Nat) (sections : List String) : List TChunk :=
  semanticChunkLoop tok maxT sections [] 0 0

/-- The paragraph loop of `ContentProcessor.paragraph_chunk` (the input list
is already stripped and filtered non-empty). -/
def paragraphChunkLoop (tok : String → Nat) (maxT : Nat) :
    List String → List String → Nat → Nat → List TChunk
  | [], cur, curT, cid => if cur = [] then [] else [⟨cid, cur, curT⟩]
  | para :: rest, cur, curT, cid =>
    if maxT < curT + tok para ∧ cur ≠ [] then
      ⟨cid, cur, curT⟩ :: paragraphChunkLoop tok maxT rest [para] (tok para) (cid + 1)
    else paragraphChunkLoop tok maxT rest (cur ++ [para]) (curT + tok para) cid

/-- `ContentProcessor.paragraph_chunk`:
`paragraphs = [p.strip() for p in text.split('\n\n') if p.strip()]`
followed by the accumulate-then-flush loop. -/
def paragraph_chunk (tok : String → Nat) (maxT : Nat) (text : String) : List TChunk :=
  paragraphChunkLoop tok maxT
    (((text.splitOn "\n\n").map String.trim).filter (fun p => p ≠ "")) [] 0 0

/-! ### Embedding store (src/contextual_vector_db.py) -/

/-- Errors raised by `ContextualVectorDB`: `noData` is the
`ValueError("No data loaded in the vector database")` of `search`,
`notFound` the `ValueError(f"Database file not found: ...")` of `load_db`,
and `corruptSnapshot` stands for the unpickling error raised when the file
at `db_path` exists but is not a complete snapshot. -/
inductive DBError where
  | noData
  | notFound
  | corruptSnapshot
deriving Repr, DecidableEq

/-- The contextualized text built by `load_chunks.process_chunk`:
`f"{chunk['text']}\n\nContext: {context_text}"` when a context was produced,
else the raw chunk text. -/
def contextualize (text ctx : String) : String :=
  if ctx = "" then text else text ++ "\n\nContext: " ++ ctx

/-- The metadata record built on the `generate_context=False` path of
`load_chunks`. -/
def chunkMetaNoCtx (c : Chunk) : ChunkMeta :=
  { chunk := c, original_content := c.text, context := "",
    contextualized_content := c.text }

/-- The metadata record built by `load_chunks.process_chunk` when context
generation is on; `ctxF` is the Claude context oracle
(`generate_chunk_context` restricted to this document). -/
def chunkMetaCtx (ctxF : String → String) (c : Chunk) : ChunkMeta :=
  { chunk := c, original_content := c.text, context := ctxF c.text,
    contextualized_content := contextualize c.text (ctxF c.text) }

/-- The text submitted for embedding for one chunk on the context path. -/
def textToEmbedCtx (ctxF : String → String) (c : Chunk) : String :=
  contextualize c.text (ctxF c.text)

/-- The batching loop of `embed_texts`: process `texts[i:i+batch_size]` per
iteration and concatenate the returned vectors.  The Gemini call embeds each
text of a batch in order (`embedF` is the per-text oracle).  `bs = 0` cannot
arise (the Python call site always passes the default 100). -/
def embedBatchLoop (embedF : String → Vec) (bs : Nat) (ts : List String) : List Vec :=
  if h : ts = [] ∨ bs = 0 then []
  else
    (ts.take bs).map embedF ++ embedBatchLoop embedF bs (ts.drop bs)
termination_by ts.length
decreasing_by
  have h1 : ts ≠ [] := fun hh => h (Or.inl hh)
  have h2 : bs ≠ 0 := fun hh => h (Or.inr hh)
  have : 0 < ts.length := List.length_pos.mpr h1
  simp only [List.length_drop]
  omega

/-- `ContextualVectorDB.embed_texts` with the default batch size 100. -/
def embed_texts (embedF : String → Vec) (texts : List String) : List Vec :=
  embedBatchLoop embedF 100 texts

/-- `load_chunks` with `generate_context=False` (or no Anthropic client):
texts to embed are the raw chunk texts in input order, metadata records are
built in input order, and both store fields are replaced. -/
def load_chunks_noctx (embedF : String → Vec) (chunks : List Chunk)
    (db : ContextualVectorDB) : ContextualVectorDB :=
  { db with
    embeddings := embed_texts embedF (chunks.map (fun c => c.text)),
    metadata := chunks.map chunkMetaNoCtx }

/-- `load_chunks` with `generate_context=True`: chunks are processed by a
thread pool and collected in completion order (`as_completed`), so `order`
is the chunk list in that completion order (some permutation of the input);
each completed result appends its text-to-embed and its metadata record
together.  `usage` is the total token usage accumulated under
`self.token_lock` by the context calls. -/
def load_chunks_ctx (embedF : String → Vec) (ctxF : String → String)
    (order : List Chunk) (usage : TokenCounts)
    (db : ContextualVectorDB) : ContextualVectorDB :=
  { db with
    embeddings := embed_texts embedF (order.map (textToEmbedCtx ctxF)),
    metadata := order.map (chunkMetaCtx ctxF),
    token_counts := addTC db.token_counts usage }

/-- The query embedding used by `search`: the cached vector for an identical
prior query string, else a fresh embedding from the Gemini oracle `embedQ`. -/
def queryVec (embedQ : String → Vec) (db : ContextualVectorDB) (q : String) : Vec :=
  match db.query_cache.lookup q with
  | some v => v
  | none => embedQ q

/-- The store after `search` has consulted/updated `self.query_cache`. -/
def cacheAfter (embedQ : String → Vec) (db : ContextualVectorDB) (q : String) :
    ContextualVectorDB :=
  match db.query_cache.lookup q with
  | some _ => db
  | none => { db with query_cache := (q, embedQ q) :: db.query_cache }

/-- `similarities = np.dot(self.embeddings, query_embedding)`. -/
def similaritiesOf (db : ContextualVectorDB) (qv : Vec) : List Int :=
  db.embeddings.map (fun e => dot e qv)

/-- The ascending comparison used to model `np.argsort`: order indices by
value first and by index on equal values. -/
abbrev rankLE (vals : List Int) (i j : Nat) : Prop :=
  vals.getD i 0 < vals.getD j 0 ∨ (vals.getD i 0 = vals.getD j 0 ∧ i ≤ j)

instance rankLE_total (vals : List Int) : IsTotal Nat (rankLE vals) :=
  ⟨fun a b => by unfold rankLE; omega⟩

instance rankLE_trans (vals : List Int) : IsTrans Nat (rankLE vals) :=
  ⟨fun a b c hab hbc => by unfold rankLE at *; omega⟩

/-- `np.argsort(similarities)`: the index list `0, ..., n-1` sorted
ascending by value (index-ascending on ties). -/
def argsortAsc (vals : List Int) : List Nat :=
  List.insertionSort (rankLE vals) (List.range vals.length)

/-- `np.argsort(similarities)[::-1][:k]`. -/
def top_indices (vals : List Int) (k : Nat) : List Nat :=
  (argsortAsc vals).reverse.take k

/-- One entry of `search`'s result list, for a chosen index. -/
def searchHit (db : ContextualVectorDB) (sims : List Int) (i : Nat) : SearchResult :=
  { metadata := db.metadata.getD i default,
    similarity := sims.getD i 0,
    rerank_score := none }

/-- `ContextualVectorDB.search`: raise when no data is loaded, else compute
the query embedding (cache-aware), score every stored vector by dot product,
and return the records of the top-`k` indices together with the updated
store. -/
def search (embedQ : String → Vec) (db : ContextualVectorDB) (q : String) (k : Nat) :
    Except DBError (List SearchResult × ContextualVectorDB) :=
  if db.embeddings = [] then .error .noData
  else
    let sims := similaritiesOf db (queryVec embedQ db q)
    .ok ((top_indices sims k).map (searchHit db sims), cacheAfter embedQ db q)

/-- The store state after a `search` call returns or raises: a raised
`ValueError` leaves the object untouched. -/
def searchRun (embedQ : String → Vec) (db : ContextualVectorDB) (q : String) (k : Nat) :
    ContextualVectorDB :=
  match search embedQ db q k with
  | .ok (_, db2) => db2
  | .error _ => db

/-- `ContextualVectorDB.rerank_results`.  `cohereAvailable` is whether
`self.cohere_client` is set; `rerankOracle query documents top_n` is the
Cohere rerank call, returning `(index, relevance_score)` pairs, or `none`
when the call raises (the `except` fallback). -/
def rerank_results (cohereAvailable : Bool)
    (rerankOracle : String → List String → Nat → Option (List (Nat × Int)))
    (query : String) (results : List SearchResult) (top_n : Nat) : List SearchResult :=
  if cohereAvailable = false then results.take top_n
  else
    let documents := results.map (fun r => r.metadata.contextualized_content)
    match rerankOracle query documents (min top_n documents.length) with
    | none => results.take top_n
    | some items =>
        items.map (fun p => { results.getD p.1 default with rerank_score := some p.2 })

/-- The dictionary `save_db` pickles. -/
def dataOf (db : ContextualVectorDB) : DBData :=
  ⟨db.embeddings, db.metadata, db.query_cache, db.token_counts⟩

/-- `ContextualVectorDB.save_db` when the write completes: the snapshot at
the name-derived path is replaced by the current state. -/
def save_db (db : ContextualVectorDB) (fs : FS) : FS :=
  setFile fs (db_path db.name) (.snapshot (dataOf db))

/-- `save_db` with an explicit failure point: `open(self.db_path, "wb")`
truncates the destination file in place, then `pickle.dump` writes the
snapshot; `completes = false` means the dump failed partway, leaving the
truncated/partial file at the path. -/
def save_db_crash (db : ContextualVectorDB) (fs : FS) (completes : Bool) : FS :=
  let fs1 := setFile fs (db_path db.name) .truncated
  if completes then setFile fs1 (db_path db.name) (.snapshot (dataOf db)) else fs1

/-- `ContextualVectorDB.load_db`: raise `notFound` when no file exists at
the name-derived path; unpickle otherwise (raising on a corrupt file) and
replace the four state fields. -/
def load_db (fs : FS) (db : ContextualVectorDB) : Except DBError ContextualVectorDB :=
  match fs (db_path db.name) with
  | none => .error .notFound
  | some .truncated => .error .corruptSnapshot
  | some (.snapshot d) =>
      .ok { db with embeddings := d.embeddings, metadata := d.metadata,
                    query_cache := d.query_cache, token_counts := d.token_counts }

/-- The store state after a `load_db` call returns or raises: the raising
statements precede every field assignment, so a raise leaves the object
untouched. -/
def load_db_run (fs : FS) (db : ContextualVectorDB) : ContextualVectorDB :=
  match load_db fs db with
  | .ok db2 => db2
  | .error _ => db

/-! ### Operation sequences over store and snapshot file -/

/-- The combined state an operation sequence acts on: one store instance and
the pickle file system. -/
structure World where
  db : ContextualVectorDB
  fs : FS

/-- A fresh store with an empty file system. -/
def initWorld (name : String) : World :=
  ⟨initDB name, fun _ => none⟩

/-- `load_chunks(generate_context=False)` including its trailing
`self.save_db()`. -/
def loadNoctxOp (embedF : String → Vec) (chunks : List Chunk) (w : World) : World :=
  let db2 := load_chunks_noctx embedF chunks w.db
  ⟨db2, save_db db2 w.fs⟩

/-- `load_chunks(generate_context=True)` including its trailing
`self.save_db()`. -/
def loadCtxOp (embedF : String → Vec) (ctxF : String → String)
    (order : List Chunk) (usage : TokenCounts) (w : World) : World :=
  let db2 := load_chunks_ctx embedF ctxF order usage w.db
  ⟨db2, save_db db2 w.fs⟩

/-- A `search` call (which may extend the query cache, or raise). -/
def searchOp (embedQ : String → Vec) (q : String) (k : Nat) (w : World) : World :=
  ⟨searchRun embedQ w.db q k, w.fs⟩

/-- A `save_db` call. -/
def saveOp (w : World) : World :=
  ⟨w.db, save_db w.db w.fs⟩

/-- A `load_db` call (which raises on a missing snapshot, leaving the store
untouched). -/
def loadOp (w : World) : World :=
  ⟨load_db_run w.fs w.db, w.fs⟩

/-- One public operation on the store, for a fixed document-embedding oracle
`embedF`.  Context oracles, query oracles and usage totals vary per call. -/
inductive Step (embedF : String → Vec) : World → World → Prop
  | load_noctx (chunks : List Chunk) (w : World) :
      Step embedF w (loadNoctxOp embedF chunks w)
  | load_ctx (ctxF : String → String) (order : List Chunk) (usage : TokenCounts)
      (w : World) : Step embedF w (loadCtxOp embedF ctxF order usage w)
  | do_search (embedQ : String → Vec) (q : String) (k : Nat) (w : World) :
      Step embedF w (searchOp embedQ q k w)
  | do_save (w : World) : Step embedF w (saveOp w)
  | do_load (w : World) : Step embedF w (loadOp w)

/-- Worlds reachable from a fresh store by any sequence of `load_chunks`,
`search`, `save_db` and `load_db` operations. -/
def Reachable (embedF : String → Vec) (name : String) (w : World) : Prop :=
  Relation.ReflTransGen (Step embedF) (initWorld name) w

/-- The parallel-sequence alignment invariant between an embeddings sequence
and a metadata sequence: equal lengths, each record's
`contextualized_content` is its raw text extended by its context exactly as
`process_chunk` builds it, and each vector is the embedding of that text. -/
def AlignedSeqs (embedF : String → Vec) (es : List Vec) (ms : List ChunkMeta) : Prop :=
  es.length = ms.length ∧
  ∀ i (h1 : i < es.length) (h2 : i < ms.length),
    (ms.get ⟨i, h2⟩).contextualized_content
        = contextualize (ms.get ⟨i, h2⟩).original_content (ms.get ⟨i, h2⟩).context
    ∧ es.get ⟨i, h1⟩ = embedF ((ms.get ⟨i, h2⟩).contextualized_content)

/-- The store/file-system invariant: the live store is aligned and so is
every complete snapshot on disk. -/
def WorldInv (embedF : String → Vec) (w : World) : Prop :=
  AlignedSeqs embedF w.db.embeddings w.db.metadata ∧
  ∀ p d, w.fs p = some (.snapshot d) → AlignedSeqs embedF d.embeddings d.metadata

/-! ### Stated properties -/

/-- Chunk ids are exactly `0, 1, 2, ...` in emission order. -/
def idsContiguous (cs : List TChunk) : Prop :=
  cs.map (fun c => c.id) = List.range cs.length

/-- No emitted chunk has an empty text buffer. -/
def buffersNonempty (cs : List TChunk) : Prop :=
  ∀ c ∈ cs, c.parts ≠ []

/-- Adjacency produced by `manual_chunk` with overlap enabled: the later
chunk's buffer starts with the overlap seed taken from the earlier chunk's
buffer, followed by at least one fresh sentence. -/
def chunkAdj (tok : String → Nat) (ovT : Nat) (a b : TChunk) : Prop :=
  ∃ s rest, b.parts = (overlapOf tok ovT a.parts).1 ++ s :: rest

/-- Descending-similarity order with ties broken by descending insertion
index — the order actually produced by `np.argsort(...)[::-1]`. -/
def descTie (vals : List Int) (i j : Nat) : Prop :=
  vals.getD j 0 < vals.getD i 0 ∨ (vals.getD i 0 = vals.getD j 0 ∧ j < i)

/-- Postcondition of claim C1 at a world: the live store is aligned, and
every search result pairs the similarity score computed against
`embeddings[idx]` with the metadata record `metadata[idx]` of that same
index, whose stored vector is the embedding of its contextualized text. -/
def C1Post (embedF : String → Vec) (w : World) : Prop :=
  AlignedSeqs embedF w.db.embeddings w.db.metadata ∧
  ∀ (embedQ : String → Vec) (q : String) (k : Nat) results db2,
    search embedQ w.db q k = Except.ok (results, db2) →
    ∀ j (hj : j < results.length),
      ∃ idx, ∃ h1 : idx < w.db.embeddings.length, ∃ h2 : idx < w.db.metadata.length,
        results.get ⟨j, hj⟩ =
          { metadata := w.db.metadata.get ⟨idx, h2⟩,
            similarity := dot (w.db.embeddings.get ⟨idx, h1⟩) (queryVec embedQ w.db q),
            rerank_score := none } ∧
        w.db.embeddings.get ⟨idx, h1⟩
          = embedF ((w.db.metadata.get ⟨idx, h2⟩).contextualized_content) ∧
        (w.db.metadata.get ⟨idx, h2⟩).contextualized_content
          = contextualize (w.db.metadata.get ⟨idx, h2⟩).original_content
              ((w.db.metadata.get ⟨idx, h2⟩).context)

/-- Postcondition of (amended) claim C2 at one search call: the call
succeeds, returns the records of `top_indices` in order, at most `k` of
them, in descending-similarity order with ties broken by descending
insertion index. -/
def C2Post (embedQ : String → Vec) (db : ContextualVectorDB) (q : String) (k : Nat) : Prop :=
  let sims := similaritiesOf db (queryVec embedQ db q)
  let tl := top_indices sims k
  search embedQ db q k = Except.ok (tl.map (searchHit db sims), cacheAfter embedQ db q) ∧
  tl.length ≤ k ∧
  List.Pairwise (descTie sims) tl ∧
  (∀ i ∈ tl, i < db.embeddings.length) ∧
  List.Pairwise (fun a b => b ≤ a) (tl.map (fun i => sims.getD i 0))

/-- Postcondition of (amended) claim C3: each chunk after the first begins
with the (possibly empty) overlap seed drawn from its predecessor's trailing
sentences; the seed is a suffix of the predecessor's buffer and is non-empty
exactly when the predecessor's last sentence fits within `overlap_tokens`;
and when no single sentence exceeds `max_tokens`, no chunk's token count
exceeds `max_tokens + overlap_tokens`. -/
def C3Post (tok : String → Nat) (maxT ovT : Nat) (sents : List String) : Prop :=
  List.Chain' (chunkAdj tok ovT) (manual_chunk tok maxT ovT sents) ∧
  (∀ l : List String, (overlapOf tok ovT l).1 <:+ l) ∧
  (∀ l : List String, l ≠ [] →
    ((overlapOf tok ovT l).1 ≠ [] ↔ tok (l.getLastD "") ≤ ovT)) ∧
  ((∀ s ∈ sents, tok s ≤ maxT) →
    ∀ c ∈ manual_chunk tok maxT ovT sents, c.tokens ≤ maxT + ovT)

/-! ### Concrete fixtures for counterexamples and witnesses -/

/-- A tiny chunk dict. -/
def chunkAlpha : Chunk := ⟨0, "alpha", 1, "alpha", "manual"⟩

/-- A second tiny chunk dict. -/
def chunkBeta : Chunk := ⟨1, "beta", 1, "beta", "manual"⟩

/-- Metadata record of `chunkAlpha` (insertion index 0 below). -/
def metaAlpha : ChunkMeta := chunkMetaNoCtx chunkAlpha

/-- Metadata record of `chunkBeta` (insertion index 1 below). -/
def metaBeta : ChunkMeta := chunkMetaNoCtx chunkBeta

/-- A store holding two records whose vectors are identical (hence tied on
every query); the query "q" is cached so a search is fully deterministic. -/
def tieDB : ContextualVectorDB :=
  { name := "kb", embeddings := [[1], [1]], metadata := [metaAlpha, metaBeta],
    query_cache := [("q", [1])], token_counts := ⟨0, 0, 0, 0⟩ }

/-- A valid snapshot previously persisted for collection "kb". -/
def snapOld : DBData := dataOf (initDB "kb")

/-- A file system holding that prior valid snapshot at the name-derived
path. -/
def fsWithOld : FS :=
  fun p => if p = db_path "kb" then some (.snapshot snapOld) else none

/-! ### Helper lemmas -/

theorem embedBatchLoop_eq_map (embedF : String → Vec) (bs : Nat) (hbs : 0 < bs) :
    ∀ ts : List String, embedBatchLoop embedF bs ts = ts.map embedF
  | [] => by rw [embedBatchLoop]; simp
  | t :: ts => by
    rw [embedBatchLoop]
    have hne : ¬(t :: ts = [] ∨ bs = 0) := by
      rintro (h | h)
      · exact List.cons_ne_nil t ts h
      · omega
    rw [dif_neg hne, embedBatchLoop_eq_map embedF bs hbs ((t :: ts).drop bs)]
    rw [← List.map_append, List.take_append_drop]
termination_by ts => ts.length
decreasing_by simp only [List.length_drop]; simp; omega

/-- `embed_texts` embeds every input text, in order. -/
theorem embed_texts_eq_map (embedF : String → Vec) (texts : List String) :
    embed_texts embedF texts = texts.map embedF :=
  embedBatchLoop_eq_map embedF 100 (by omega) texts

theorem manualChunkLoop_ids (tok : String → Nat) (maxT ovT : Nat) :
    ∀ (rest cur : List String) (curT cid : Nat),
      (manualChunkLoop tok maxT ovT rest cur curT cid).map (fun c => c.id)
        = List.range' cid (manualChunkLoop tok maxT ovT rest cur curT cid).length
  | [], cur, curT, cid => by
    by_cases hc : cur = [] <;> simp [manualChunkLoop, hc, List.range'_succ]
  | s :: rest, cur, curT, cid => by
    by_cases hc : maxT < curT + tok s ∧ cur ≠ []
    · simp only [manualChunkLoop, if_pos hc, List.map_cons, List.length_cons,
        List.range'_succ, List.cons.injEq, true_and]
      exact manualChunkLoop_ids tok maxT ovT rest _ _ _
    · simp only [manualChunkLoop, if_neg hc]
      exact manualChunkLoop_ids tok maxT ovT rest _ _ _

theorem manualChunkLoop_parts (tok : String → Nat) (maxT ovT : Nat) :
    ∀ (rest cur : List String) (curT cid : Nat),
      ∀ c ∈ manualChunkLoop tok maxT ovT rest cur curT cid, c.parts ≠ []
  | [], cur, curT, cid => by
    by_cases hc : cur = [] <;> simp [manualChunkLoop, hc]
  | s :: rest, cur, curT, cid => by
    by_cases hc : maxT < curT + tok s ∧ cur ≠ []
    · simp only [manualChunkLoop, if_pos hc, List.mem_cons]
      rintro c (rfl | hm)
      · exact hc.2
      · exact manualChunkLoop_parts tok maxT ovT rest _ _ _ c hm
    · simp only [manualChunkLoop, if_neg hc]
      exact manualChunkLoop_parts tok maxT ovT rest _ _ _

theorem semanticChunkLoop_ids (tok : String → Nat) (maxT : Nat) :
    ∀ (rest cur : List String) (curT cid : Nat),
      (semanticChunkLoop tok maxT rest cur curT cid).map (fun c => c.id)
        = List.range' cid (semanticChunkLoop tok maxT rest cur curT cid).length
  | [], cur, curT, cid => by
    by_cases hc : cur = [] <;> simp [semanticChunkLoop, hc, List.range'_succ]
  | sec :: rest, cur, curT, cid => by
    by_cases hsk : sec.trim = ""
    · simp only [semanticChunkLoop, if_pos hsk]
      exact semanticChunkLoop_ids tok maxT rest _ _ _
    · by_cases hc : maxT < curT + tok sec ∧ cur ≠ []
      · simp only [semanticChunkLoop, if_neg hsk, if_pos hc, List.map_cons,
          List.length_cons, List.range'_succ, List.cons.injEq, true_and]
        exact semanticChunkLoop_ids tok maxT rest _ _ _
      · simp only [semanticChunkLoop, if_neg hsk, if_neg hc]
        exact semanticChunkLoop_ids tok maxT rest _ _ _

theorem semanticChunkLoop_parts_ne (tok : String → Nat) (maxT : Nat) :
    ∀ (rest cur : List String) (curT cid : Nat),
      ∀ c ∈ semanticChunkLoop tok maxT rest cur curT cid, c.parts ≠ []
  | [], cur, curT, cid => by
    by_cases hc : cur = [] <;> simp [semanticChunkLoop, hc]
  | sec :: rest, cur, curT, cid => by
    by_cases hsk : sec.trim = ""
    · simp only [semanticChunkLoop, if_pos hsk]
      exact semanticChunkLoop_parts_ne tok maxT rest _ _ _
    · by_cases hc : maxT < curT + tok sec ∧ cur ≠ []
      · simp only [semanticChunkLoop, if_neg hsk, if_pos hc, List.mem_cons]
        rintro c (rfl | hm)
        · exact hc.2
        · exact semanticChunkLoop_parts_ne tok maxT rest _ _ _ c hm
      · simp only [semanticChunkLoop, if_neg hsk, if_neg hc]
        exact semanticChunkLoop_parts_ne tok maxT rest _ _ _

theorem paragraphChunkLoop_ids (tok : String → Nat) (maxT : Nat) :
    ∀ (rest cur : List String) (curT cid : Nat),
      (paragraphChunkLoop tok maxT rest cur curT cid).map (fun c => c.id)
        = List.range' cid (paragraphChunkLoop tok maxT rest cur curT cid).length
  | [], cur, curT, cid => by
    by_cases hc : cur = [] <;> simp [paragraphChunkLoop, hc, List.range'_succ]
  | para :: rest, cur, curT, cid => by
    by_cases hc : maxT < curT + tok para ∧ cur ≠ []
    · simp only [paragraphChunkLoop, if_pos hc, List.map_cons, List.length_cons,
        List.range'_succ, List.cons.injEq, true_and]
      exact paragraphChunkLoop_ids tok maxT rest _ _ _
    · simp only [paragraphChunkLoop, if_neg hc]
      exact paragraphChunkLoop_ids tok maxT rest _ _ _

theorem paragraphChunkLoop_parts (tok : String → Nat) (maxT : Nat) :
    ∀ (rest cur : List String) (curT cid : Nat),
      ∀ c ∈ paragraphChunkLoop tok maxT rest cur curT cid, c.parts ≠ []
  | [], cur, curT, cid => by
    by_cases hc : cur = [] <;> simp [paragraphChunkLoop, hc]
  | para :: rest, cur, curT, cid => by
    by_cases hc : maxT < curT + tok para ∧ cur ≠ []
    · simp only [paragraphChunkLoop, if_pos hc, List.mem_cons]
      rintro c (rfl | hm)
      · exact hc.2
      · exact paragraphChunkLoop_parts tok maxT rest _ _ _ c hm
    · simp only [paragraphChunkLoop, if_neg hc]
      exact paragraphChunkLoop_parts tok maxT rest _ _ _

theorem overlapGo_fst_take (tok : String → Nat) (lim : Nat) :
    ∀ (l : List String) (cnt : Nat),
      ∃ n, (overlapGo tok lim l cnt).1 = (l.take n).reverse
  | [], cnt => ⟨0, by simp [overlapGo]⟩
  | s :: rest, cnt => by
    by_cases h : cnt + tok s ≤ lim
    · obtain ⟨n, hn⟩ := overlapGo_fst_take tok lim rest (cnt + tok s)
      exact ⟨n + 1, by simp [overlapGo, if_pos h, hn]⟩
    · exact ⟨0, by simp [overlapGo, if_neg h]⟩

/-- The overlap seed is a suffix (trailing whole sentences) of the flushed
buffer. -/
theorem overlapOf_suffix (tok : String → Nat) (lim : Nat) (l : List String) :
    (overlapOf tok lim l).1 <:+ l := by
  obtain ⟨n, hn⟩ := overlapGo_fst_take tok lim l.reverse 0
  rw [overlapOf, hn]
  have h2 : (l.reverse.take n).reverse <:+ l.reverse.reverse :=
    List.reverse_suffix.mpr (List.take_prefix n l.reverse)
  simpa using h2

theorem overlapGo_snd_le (tok : String → Nat) (lim : Nat) :
    ∀ (l : List String) (cnt : Nat), cnt ≤ lim → (overlapGo tok lim l cnt).2 ≤ lim
  | [], cnt, h => h
  | s :: rest, cnt, h => by
    by_cases hf : cnt + tok s ≤ lim
    · simpa [overlapGo, if_pos hf] using overlapGo_snd_le tok lim rest (cnt + tok s) hf
    · simpa [overlapGo, if_neg hf] using h

/-- The overlap seed is non-empty exactly when the flushed buffer's last
sentence fits within the overlap window. -/
theorem overlapOf_ne_iff (tok : String → Nat) (lim : Nat) (l : List String)
    (hl : l ≠ []) : (overlapOf tok lim l).1 ≠ [] ↔ tok (l.getLastD "") ≤ lim := by
  obtain ⟨l0, a, rfl⟩ := (List.eq_nil_or_concat' l).resolve_left hl
  rw [overlapOf, List.getLastD_concat, List.reverse_append, List.reverse_cons,
    List.reverse_nil, List.nil_append, List.cons_append, List.nil_append]
  show (overlapGo tok lim (a :: l0.reverse) 0).1 ≠ [] ↔ tok a ≤ lim
  by_cases h : 0 + tok a ≤ lim
  · simp only [overlapGo, if_pos h]
    constructor
    · intro _; omega
    · intro _; simp
  · simp only [overlapGo, if_neg h]
    constructor
    · intro hfalse; exact absurd rfl hfalse
    · intro hle; omega

theorem manualChunkLoop_chain (tok : String → Nat) (maxT ovT : Nat) (hov : 0 < ovT) :
    ∀ (rest cur : List String) (curT cid : Nat),
      (∀ b ∈ (manualChunkLoop tok maxT ovT rest cur curT cid).head?,
        ∃ ext, b.parts = cur ++ ext) ∧
      List.Chain' (chunkAdj tok ovT) (manualChunkLoop tok maxT ovT rest cur curT cid)
  | [], cur, curT, cid => by
    by_cases hc : cur = []
    · simp [manualChunkLoop, hc]
    · refine ⟨?_, by simp [manualChunkLoop, hc]⟩
      simp only [manualChunkLoop, if_neg hc, List.head?_cons, Option.mem_some_iff]
      rintro b rfl
      exact ⟨[], by simp⟩
  | s :: rest, cur, curT, cid => by
    by_cases hc : maxT < curT + tok s ∧ cur ≠ []
    · have ih := manualChunkLoop_chain tok maxT ovT hov rest
        ((if 0 < ovT then overlapOf tok ovT cur else ([], 0)).1 ++ [s])
        ((if 0 < ovT then overlapOf tok ovT cur else ([], 0)).2 + tok s) (cid + 1)
      constructor
      · simp only [manualChunkLoop, if_pos hc, List.head?_cons, Option.mem_some_iff]
        rintro b rfl
        exact ⟨[], by simp⟩
      · simp only [manualChunkLoop, if_pos hc]
        refine List.chain'_cons'.mpr ⟨?_, ih.2⟩
        intro y hy
        obtain ⟨ext, hext⟩ := ih.1 y hy
        refine ⟨s, ext, ?_⟩
        simp only [if_pos hov] at hext
        simpa [List.append_assoc] using hext
    · have ih := manualChunkLoop_chain tok maxT ovT hov rest (cur ++ [s])
        (curT + tok s) cid
      refine ⟨?_, by simpa only [manualChunkLoop, if_neg hc] using ih.2⟩
      simp only [manualChunkLoop, if_neg hc]
      intro b hb
      obtain ⟨ext, hext⟩ := ih.1 b hb
      exact ⟨s :: ext, by simpa [List.append_assoc] using hext⟩

theorem manualChunkLoop_tokens (tok : String → Nat) (maxT ovT : Nat) :
    ∀ (rest cur : List String) (curT cid : Nat),
      (∀ s ∈ rest, tok s ≤ maxT) → curT ≤ maxT + ovT → (cur = [] → curT = 0) →
      ∀ c ∈ manualChunkLoop tok maxT ovT rest cur curT cid, c.tokens ≤ maxT + ovT
  | [], cur, curT, cid => by
    intro _ hT _
    by_cases hc : cur = [] <;> simp [manualChunkLoop, hc]
    exact hT
  | s :: rest, cur, curT, cid => by
    intro hall hT h0
    by_cases hc : maxT < curT + tok s ∧ cur ≠ []
    · simp only [manualChunkLoop, if_pos hc, List.mem_cons]
      rintro c (rfl | hm)
      · exact hT
      · have hov2 : (if 0 < ovT then overlapOf tok ovT cur else ([], 0)).2 ≤ ovT := by
          by_cases hov : 0 < ovT
          · simpa [if_pos hov] using overlapGo_snd_le tok ovT cur.reverse 0 (by omega)
          · simp [if_neg hov]
        have hs : tok s ≤ maxT := hall s (List.mem_cons_self s rest)
        refine manualChunkLoop_tokens tok maxT ovT rest _ _ _
          (fun x hx => hall x (List.mem_cons_of_mem s hx)) (by omega) ?_ c hm
        intro hemp
        exact absurd hemp (by simp)
    · simp only [manualChunkLoop, if_neg hc]
      have hnew : curT + tok s ≤ maxT + ovT := by
        rcases not_and_or.mp hc with h | h
        · omega
        · have : cur = [] := not_not.mp h
          have := h0 this
          have hs : tok s ≤ maxT := hall s (List.mem_cons_self s rest)
          omega
      exact manualChunkLoop_tokens tok maxT ovT rest _ _ _
        (fun x hx => hall x (List.mem_cons_of_mem s hx)) hnew
        (fun hemp => absurd hemp (by simp))

theorem argsortAsc_perm (vals : List Int) :
    List.Perm (argsortAsc vals) (List.range vals.length) :=
  List.perm_insertionSort (rankLE vals) (List.range vals.length)

theorem argsortAsc_sorted (vals : List Int) :
    List.Pairwise (rankLE vals) (argsortAsc vals) :=
  List.sorted_insertionSort (rankLE vals) (List.range vals.length)

theorem argsortAsc_nodup (vals : List Int) : (argsortAsc vals).Nodup :=
  (argsortAsc_perm vals).symm.nodup (List.nodup_range vals.length)

theorem top_indices_length (vals : List Int) (k : Nat) :
    (top_indices vals k).length ≤ k := by
  simp [top_indices]

theorem top_indices_lt (vals : List Int) (k : Nat) :
    ∀ i ∈ top_indices vals k, i < vals.length := by
  intro i hi
  have h1 : i ∈ (argsortAsc vals).reverse := List.mem_of_mem_take hi
  have h2 : i ∈ argsortAsc vals := List.mem_reverse.mp h1
  have h3 : i ∈ List.range vals.length := (argsortAsc_perm vals).mem_iff.mp h2
  exact List.mem_range.mp h3

theorem top_indices_pairwise (vals : List Int) (k : Nat) :
    List.Pairwise (descTie vals) (top_indices vals k) := by
  have hrev : List.Pairwise (fun i j => rankLE vals j i) (argsortAsc vals).reverse :=
    List.pairwise_reverse.mpr (argsortAsc_sorted vals)
  have hnd : List.Pairwise (fun i j => i ≠ j) (argsortAsc vals).reverse :=
    (List.nodup_reverse.mpr (argsortAsc_nodup vals))
  have htake1 : List.Pairwise (fun i j => rankLE vals j i) (top_indices vals k) :=
    List.Pairwise.sublist (List.take_sublist k _) hrev
  have htake2 : List.Pairwise (fun i j : Nat => i ≠ j) (top_indices vals k) :=
    List.Pairwise.sublist (List.take_sublist k _) hnd
  refine (htake1.and htake2).imp ?_
  rintro i j ⟨hr, hne⟩
  rcases hr with h | ⟨he, hle⟩
  · exact Or.inl h
  · exact Or.inr ⟨he.symm, lt_of_le_of_ne hle (fun h => hne h.symm)⟩

theorem top_indices_sims_sorted (vals : List Int) (k : Nat) :
    List.Pairwise (fun a b => b ≤ a)
      ((top_indices vals k).map (fun i => vals.getD i 0)) := by
  refine List.Pairwise.map _ ?_ (top_indices_pairwise vals k)
  rintro i j (h | ⟨he, _⟩)
  · exact le_of_lt h
  · exact le_of_eq he.symm

theorem aligned_load_noctx (embedF : String → Vec) (chunks : List Chunk)
    (db : ContextualVectorDB) :
    AlignedSeqs embedF (load_chunks_noctx embedF chunks db).embeddings
      (load_chunks_noctx embedF chunks db).metadata := by
  unfold load_chunks_noctx AlignedSeqs
  rw [embed_texts_eq_map]
  refine ⟨by simp, ?_⟩
  intro i h1 h2
  simp only [List.length_map] at h1 h2
  simp [List.get_eq_getElem, chunkMetaNoCtx, contextualize]

theorem aligned_load_ctx (embedF : String → Vec) (ctxF : String → String)
    (order : List Chunk) (usage : TokenCounts) (db : ContextualVectorDB) :
    AlignedSeqs embedF (load_chunks_ctx embedF ctxF order usage db).embeddings
      (load_chunks_ctx embedF ctxF order usage db).metadata := by
  unfold load_chunks_ctx AlignedSeqs
  rw [embed_texts_eq_map]
  refine ⟨by simp, ?_⟩
  intro i h1 h2
  simp only [List.length_map] at h1 h2
  simp [List.get_eq_getElem, chunkMetaCtx, textToEmbedCtx]

theorem searchRun_fields (embedQ : String → Vec) (db : ContextualVectorDB)
    (q : String) (k : Nat) :
    (searchRun embedQ db q k).embeddings = db.embeddings ∧
    (searchRun embedQ db q k).metadata = db.metadata := by
  unfold searchRun search
  by_cases h : db.embeddings = []
  · simp [h]
  · simp only [if_neg h]
    unfold cacheAfter
    cases db.query_cache.lookup q <;> simp

theorem load_db_run_cases (fs : FS) (db : ContextualVectorDB) :
    load_db_run fs db = db ∨
    ∃ d, fs (db_path db.name) = some (.snapshot d) ∧
      load_db_run fs db =
        { db with embeddings := d.embeddings, metadata := d.metadata,
                  query_cache := d.query_cache, token_counts := d.token_counts } := by
  unfold load_db_run load_db
  cases hfs : fs (db_path db.name) with
  | none => simp
  | some c =>
    cases c with
    | snapshot d => exact Or.inr ⟨d, rfl, rfl⟩
    | truncated => simp

theorem worldInv_init (embedF : String → Vec) (name : String) :
    WorldInv embedF (initWorld name) := by
  refine ⟨⟨rfl, ?_⟩, ?_⟩
  · intro i h1 h2
    simp [initWorld, initDB] at h1
  · intro p d h
    simp [initWorld] at h

theorem worldInv_save (embedF : String → Vec) (db : ContextualVectorDB) (fs : FS)
    (hdb : AlignedSeqs embedF db.embeddings db.metadata)
    (hfs : ∀ p d, fs p = some (.snapshot d) →
      AlignedSeqs embedF d.embeddings d.metadata) :
    ∀ p d, (save_db db fs) p = some (.snapshot d) →
      AlignedSeqs embedF d.embeddings d.metadata := by
  intro p d h
  unfold save_db setFile at h
  by_cases hp : p = db_path db.name
  · rw [if_pos hp] at h
    obtain ⟨rfl⟩ : dataOf db = d := by
      cases h with | refl => rfl
    exact hdb
  · rw [if_neg hp] at h
    exact hfs p d h

theorem worldInv_step (embedF : String → Vec) (w w2 : World)
    (hstep : Step embedF w w2) (hinv : WorldInv embedF w) : WorldInv embedF w2 := by
  obtain ⟨hdb, hfs⟩ := hinv
  cases hstep with
  | load_noctx chunks w =>
    refine ⟨aligned_load_noctx embedF chunks w.db, ?_⟩
    exact worldInv_save embedF _ w.fs (aligned_load_noctx embedF chunks w.db) hfs
  | load_ctx ctxF order usage w =>
    refine ⟨aligned_load_ctx embedF ctxF order usage w.db, ?_⟩
    exact worldInv_save embedF _ w.fs (aligned_load_ctx embedF ctxF order usage w.db) hfs
  | do_search embedQ q k w =>
    obtain ⟨he, hm⟩ := searchRun_fields embedQ w.db q k
    refine ⟨?_, hfs⟩
    simpa only [searchOp, he, hm] using hdb
  | do_save w =>
    exact ⟨hdb, worldInv_save embedF w.db w.fs hdb hfs⟩
  | do_load w =>
    rcases load_db_run_cases w.fs w.db with h | ⟨d, hsnap, h⟩
    · refine ⟨?_, hfs⟩
      simpa only [loadOp, h] using hdb
    · refine ⟨?_, hfs⟩
      have := hfs _ _ hsnap
      simpa only [loadOp, h] using this

theorem worldInv_reachable (embedF : String → Vec) (name : String) (w : World)
    (hw : Reachable embedF name w) : WorldInv embedF w := by
  induction hw with
  | refl => exact worldInv_init embedF name
  | tail _ hstep ih => exact worldInv_step embedF _ _ hstep ih

theorem c1post_of_inv (embedF : String → Vec) (w : World)
    (hinv : WorldInv embedF w) : C1Post embedF w := by
  obtain ⟨hal, _⟩ := hinv
  refine ⟨hal, ?_⟩
  obtain ⟨hlen, hind⟩ := hal
  intro embedQ q k results db2 hok j hj
  by_cases hne : w.db.embeddings = []
  · rw [search, if_pos hne] at hok
    exact absurd hok (by simp)
  · rw [search, if_neg hne] at hok
    simp only [Except.ok.injEq, Prod.mk.injEq] at hok
    obtain ⟨hres, _⟩ := hok
    subst hres
    set sims := similaritiesOf w.db (queryVec embedQ w.db q) with hsims
    set tl := top_indices sims k with htl
    have hjt : j < tl.length := by simpa using hj
    set idx := tl.get ⟨j, hjt⟩ with hidx
    have hmem : idx ∈ tl := by rw [hidx]; exact List.get_mem tl j hjt
    have hslen : sims.length = w.db.embeddings.length := by
      simp [hsims, similaritiesOf]
    have h1 : idx < w.db.embeddings.length := by
      have := top_indices_lt sims k idx hmem
      omega
    have h2 : idx < w.db.metadata.length := by omega
    refine ⟨idx, h1, h2, ?_, (hind idx h1 h2).2, (hind idx h1 h2).1⟩
    have hget : ((tl.map (searchHit w.db sims)).get ⟨j, hj⟩) = searchHit w.db sims idx := by
      simp [List.get_eq_getElem, hidx]
    rw [hget]
    unfold searchHit
    have hmeta : w.db.metadata.getD idx default = w.db.metadata.get ⟨idx, h2⟩ := by
      rw [List.getD_eq_getElem w.db.metadata default h2]
      simp [List.get_eq_getElem]
    have hsim : sims.getD idx 0 =
        dot (w.db.embeddings.get ⟨idx, h1⟩) (queryVec embedQ w.db q) := by
      have hlt : idx < sims.length := by omega
      rw [List.getD_eq_getElem sims 0 hlt]
      simp [hsims, similaritiesOf, List.get_eq_getElem]
    rw [hmeta, hsim]

/-- Claim C1: after any sequence of `load_chunks`, `search`, `save_db` and
`load_db` operations, the embeddings list and the metadata list have equal
length; for every index the stored vector is the embedding of the text
built from that record's chunk (the contextualized text when context
generation produced one, else the raw text); and every result reported by
`search` pairs the similarity score computed against `embeddings[idx]` with
the metadata record `metadata[idx]` of that same index. -/
theorem c1_parallel_alignment (embedF : String → Vec) (name : String) (w : World)
    (hw : Reachable embedF name w) : C1Post embedF w :=
  c1post_of_inv embedF w (worldInv_reachable embedF name w hw)

/-- Witness for C1: a world concretely reached by one
`load_chunks(generate_context=False)` call satisfies the postcondition. -/
theorem c1_parallel_alignment_witness :
    Reachable (fun s => [Int.ofNat s.length]) "kb"
      (loadNoctxOp (fun s => [Int.ofNat s.length]) [chunkAlpha] (initWorld "kb")) ∧
    C1Post (fun s => [Int.ofNat s.length])
      (loadNoctxOp (fun s => [Int.ofNat s.length]) [chunkAlpha] (initWorld "kb")) :=
  have hr : Reachable (fun s => [Int.ofNat s.length]) "kb"
      (loadNoctxOp (fun s => [Int.ofNat s.length]) [chunkAlpha] (initWorld "kb")) :=
    Relation.ReflTransGen.single (Step.load_noctx [chunkAlpha] (initWorld "kb"))
  ⟨hr, c1_parallel_alignment (fun s => [Int.ofNat s.length]) "kb" _ hr⟩

/-- Claim C2, amended: for every store with at least one stored vector,
`search(query, k)` succeeds and returns at most `k` results sorted by
descending similarity; but on equal similarity the record with the LARGER
insertion index appears first, because `np.argsort(similarities)[::-1]`
reverses an ascending argsort and thereby flips the tie order.  The
original ascending tie-break is refuted by `c2_search_tie_counterexample`. -/
theorem c2_search_ranking (embedQ : String → Vec) (db : ContextualVectorDB)
    (q : String) (k : Nat) (hne : db.embeddings ≠ []) :
    C2Post embedQ db q k := by
  simp only [C2Post]
  refine ⟨?_, top_indices_length _ _, top_indices_pairwise _ _, ?_,
    top_indices_sims_sorted _ _⟩
  · rw [search, if_neg hne]
  · intro i hi
    have := top_indices_lt _ _ i hi
    simpa [similaritiesOf] using this

/-- Witness for C2 at a concrete two-record store with a cached query. -/
theorem c2_search_ranking_witness :
    tieDB.embeddings ≠ [] ∧ C2Post (fun _ => [0]) tieDB "q" 2 :=
  ⟨by decide, c2_search_ranking (fun _ => [0]) tieDB "q" 2 (by decide)⟩

/-- Counterexample to C2 as stated: both stored vectors of `tieDB` score 1
against the cached query "q", yet `search` returns the record with
insertion index 1 (`metaBeta`) before the record with insertion index 0
(`metaAlpha`). -/
theorem c2_search_tie_counterexample :
    search (fun _ => [0]) tieDB "q" 2 =
      Except.ok ([⟨metaBeta, 1, none⟩, ⟨metaAlpha, 1, none⟩], tieDB) ∧
    tieDB.metadata.getD 0 default = metaAlpha ∧
    tieDB.metadata.getD 1 default = metaBeta ∧
    metaAlpha ≠ metaBeta ∧
    dot (tieDB.embeddings.getD 0 []) [1] = dot (tieDB.embeddings.getD 1 []) [1] :=
  ⟨rfl, rfl, rfl, by decide, rfl⟩

/-- Claim C3, amended: with `overlap_tokens = v > 0`, each chunk after the
first begins with the overlap seed drawn from its predecessor's trailing
whole sentences — a suffix of the predecessor's buffer that is non-empty
exactly when the predecessor's LAST sentence has at most `overlap_tokens`
tokens (so the overlap can be empty); and when no single input sentence
exceeds `max_tokens`, every chunk's token count is at most
`max_tokens + overlap_tokens` (the seed can push a chunk past plain
`max_tokens`).  Both weakenings are forced by `c3_chunk_counterexample`. -/
theorem c3_overlap_and_bound (tok : String → Nat) (maxT ovT : Nat)
    (hov : 0 < ovT) (sents : List String) : C3Post tok maxT ovT sents :=
  ⟨(manualChunkLoop_chain tok maxT ovT hov sents [] 0 0).2,
   fun l => overlapOf_suffix tok ovT l,
   fun l hl => overlapOf_ne_iff tok ovT l hl,
   fun hall => manualChunkLoop_tokens tok maxT ovT sents [] 0 0 hall (by omega)
     (fun _ => rfl)⟩

/-- Witness for C3: the token bound evaluated on a concrete run. -/
theorem c3_overlap_and_bound_witness :
    0 < 3 ∧
    ∀ c ∈ manual_chunk String.length 4 3 ["aaa", "bb", "cccc"], c.tokens ≤ 4 + 3 :=
  ⟨by decide,
   (c3_overlap_and_bound String.length 4 3 (by decide) ["aaa", "bb", "cccc"]).2.2.2
     (by decide)⟩

/-- Counterexample to C3 as stated (token counter: `String.length`).  With
`max_tokens = 2`, `overlap_tokens = 1`, sentences "aa","bb": the flushed
chunk's last sentence has 2 > 1 tokens, so the second chunk shares no
non-empty trailing portion with its predecessor.  With `max_tokens = 4`,
`overlap_tokens = 3`, sentences "aaa","bb","cccc": every sentence has at
most 4 tokens, yet the overlap seed makes chunk 1 carry 5 > 4 tokens. -/
theorem c3_chunk_counterexample :
    (manual_chunk String.length 2 1 ["aa", "bb"]
        = [⟨0, ["aa"], 2⟩, ⟨1, ["bb"], 2⟩] ∧
      ¬∃ ov rest2, ov ≠ ([] : List String) ∧ ov <:+ ["aa"] ∧ ["bb"] = ov ++ rest2) ∧
    (manual_chunk String.length 4 3 ["aaa", "bb", "cccc"]
        = [⟨0, ["aaa"], 3⟩, ⟨1, ["aaa", "bb"], 5⟩, ⟨2, ["bb", "cccc"], 6⟩] ∧
      (∀ s ∈ ["aaa", "bb", "cccc"], String.length s ≤ 4) ∧ 4 < 5) := by
  refine ⟨⟨by decide, ?_⟩, by decide, by decide, by decide⟩
  rintro ⟨ov, rest2, hne, hsuf, heq⟩
  obtain ⟨x, hx⟩ := List.exists_mem_of_ne_nil ov hne
  have hx1 : x ∈ ["aa"] := hsuf.sublist.mem hx
  have hx2 : x ∈ ["bb"] := by rw [heq]; exact List.mem_append_left _ hx
  simp only [List.mem_singleton] at hx1 hx2
  subst hx1
  exact absurd hx2 (by decide)

/-- Claim C4: all three chunking strategies assign chunk ids that are
exactly the contiguous integers 0, 1, 2, ... in emission order, and never
emit a chunk from an empty buffer. -/
theorem c4_chunk_ids (tok : String → Nat) (maxT ovT : Nat)
    (sents sections : List String) (text : String) :
    (idsContiguous (manual_chunk tok maxT ovT sents) ∧
      buffersNonempty (manual_chunk tok maxT ovT sents)) ∧
    (idsContiguous (semantic_chunk tok maxT sections) ∧
      buffersNonempty (semantic_chunk tok maxT sections)) ∧
    (idsContiguous (paragraph_chunk tok maxT text) ∧
      buffersNonempty (paragraph_chunk tok maxT text)) := by
  refine ⟨⟨?_, manualChunkLoop_parts tok maxT ovT sents [] 0 0⟩,
          ⟨?_, semanticChunkLoop_parts_ne tok maxT sections [] 0 0⟩,
          ⟨?_, paragraphChunkLoop_parts tok maxT _ [] 0 0⟩⟩
  · unfold idsContiguous manual_chunk
    rw [List.range_eq_range']
    exact manualChunkLoop_ids tok maxT ovT sents [] 0 0
  · unfold idsContiguous semantic_chunk
    rw [List.range_eq_range']
    exact semanticChunkLoop_ids tok maxT sections [] 0 0
  · unfold idsContiguous paragraph_chunk
    rw [List.range_eq_range']
    exact paragraphChunkLoop_ids tok maxT _ [] 0 0

/-- Witness for C4 at concrete inputs for all three strategies. -/
theorem c4_chunk_ids_witness :
    (idsContiguous (manual_chunk String.length 2 1 ["aa", "bb"]) ∧
      buffersNonempty (manual_chunk String.length 2 1 ["aa", "bb"])) ∧
    (idsContiguous (semantic_chunk String.length 2 ["ab", "  ", "cd", "efgh"]) ∧
      buffersNonempty (semantic_chunk String.length 2 ["ab", "  ", "cd", "efgh"])) ∧
    (idsContiguous (paragraph_chunk String.length 2 "ab\n\ncd ef\n\ngh") ∧
      buffersNonempty (paragraph_chunk String.length 2 "ab\n\ncd ef\n\ngh")) :=
  c4_chunk_ids String.length 2 1 ["aa", "bb"] ["ab", "  ", "cd", "efgh"]
    "ab\n\ncd ef\n\ngh"

/-- Claim C5: `load_chunks` with `generate_context=False` stores one record
per chunk in input order, with `contextualized_content` equal to
`original_content` (both the chunk's raw text) and an empty `context`. -/
theorem c5_noctx_metadata (embedF : String → Vec) (chunks : List Chunk)
    (db : ContextualVectorDB) :
    (load_chunks_noctx embedF chunks db).metadata = chunks.map chunkMetaNoCtx ∧
    ∀ m ∈ (load_chunks_noctx embedF chunks db).metadata,
      m.contextualized_content = m.original_content ∧
      m.original_content = m.chunk.text ∧
      m.context = "" := by
  refine ⟨rfl, ?_⟩
  intro m hm
  simp only [load_chunks_noctx, List.mem_map] at hm
  obtain ⟨c, _, rfl⟩ := hm
  exact ⟨rfl, rfl, rfl⟩

/-- Witness for C5 on a concrete one-chunk load. -/
theorem c5_noctx_metadata_witness :
    metaAlpha ∈ (load_chunks_noctx (fun _ => [0]) [chunkAlpha] (initDB "kb")).metadata ∧
    (metaAlpha.contextualized_content = metaAlpha.original_content ∧
      metaAlpha.original_content = metaAlpha.chunk.text ∧
      metaAlpha.context = "") :=
  ⟨by decide,
   (c5_noctx_metadata (fun _ => [0]) [chunkAlpha] (initDB "kb")).2 metaAlpha (by decide)⟩

/-- Claim C6: with the reranking backend unavailable (`self.cohere_client`
is `None`), `rerank_results` returns exactly the first `top_n` input
results in their original order, and no `rerank_score` is added. -/
theorem c6_rerank_fallback
    (rerankOracle : String → List String → Nat → Option (List (Nat × Int)))
    (query : String) (results : List SearchResult) (top_n : Nat) :
    rerank_results false rerankOracle query results top_n = results.take top_n ∧
    ((∀ r ∈ results, r.rerank_score = none) →
      ∀ r ∈ rerank_results false rerankOracle query results top_n,
        r.rerank_score = none) := by
  refine ⟨rfl, ?_⟩
  intro hall r hr
  rw [show rerank_results false rerankOracle query results top_n
      = results.take top_n from rfl] at hr
  exact hall r (List.mem_of_mem_take hr)

/-- Witness for C6 on a concrete one-result list. -/
theorem c6_rerank_fallback_witness :
    rerank_results false (fun _ _ _ => none) "q" [⟨metaAlpha, 1, none⟩] 1
      = [⟨metaAlpha, 1, none⟩] ∧
    ∀ r ∈ rerank_results false (fun _ _ _ => none) "q" [⟨metaAlpha, 1, none⟩] 1,
      r.rerank_score = none :=
  ⟨rfl, (c6_rerank_fallback (fun _ _ _ => none) "q" [⟨metaAlpha, 1, none⟩] 1).2
    (by decide)⟩

/-- Counterexample to C7 as stated: with a prior valid snapshot on disk for
"kb", a `save_db` whose write fails partway leaves a truncated file at the
name-derived path — the previous valid snapshot is NOT left intact,
because `open(self.db_path, "wb")` truncates the destination in place
(there is no write-temp-then-rename discipline). -/
theorem c7_crash_counterexample :
    fsWithOld (db_path "kb") = some (.snapshot snapOld) ∧
    (save_db_crash (initDB "kb") fsWithOld false) (db_path "kb") = some .truncated ∧
    (save_db_crash (initDB "kb") fsWithOld false) (db_path "kb")
      ≠ some (.snapshot snapOld) := by
  refine ⟨rfl, ?_, ?_⟩
  · simp [save_db_crash, setFile, initDB]
  · simp [save_db_crash, setFile, initDB]

/-- Claim C7, amended: `save_db` opens the destination path directly and
truncates it before writing, so it is NOT atomic: a completed save leaves
the new full snapshot at the name-derived path, but a save that fails after
opening leaves a truncated file there, destroying the previous snapshot. -/
theorem c7_save_not_atomic (db : ContextualVectorDB) (fs : FS) :
    (save_db_crash db fs true) (db_path db.name) = some (.snapshot (dataOf db)) ∧
    (save_db_crash db fs false) (db_path db.name) = some .truncated ∧
    save_db_crash db fs true = save_db db fs := by
  refine ⟨?_, ?_, ?_⟩
  · simp [save_db_crash, setFile]
  · simp [save_db_crash, setFile]
  · funext p
    simp only [save_db_crash, save_db]
    by_cases hp : p = db_path db.name <;> simp [setFile, hp]

/-- Claim C8: `save_db` followed by `load_db` on a fresh store instance
with the same collection name restores embeddings, metadata, query cache
and token counters identically (hence the index alignment is preserved). -/
theorem c8_roundtrip (db : ContextualVectorDB) (fs : FS) :
    load_db (save_db db fs) (initDB db.name) =
      Except.ok { initDB db.name with
        embeddings := db.embeddings, metadata := db.metadata,
        query_cache := db.query_cache, token_counts := db.token_counts } := by
  simp [load_db, save_db, setFile, dataOf, initDB]

/-- Claim C9: `load_db` raises the NotFound-style `ValueError` exactly when
no file exists at the name-derived path; a complete snapshot there loads
successfully; and any raise leaves the in-memory state unchanged (every
raising statement precedes the first field assignment). -/
theorem c9_load_notfound (fs : FS) (db : ContextualVectorDB) :
    ((load_db fs db = .error .notFound) ↔ fs (db_path db.name) = none) ∧
    (∀ d, fs (db_path db.name) = some (.snapshot d) →
      load_db fs db = .ok { db with
        embeddings := d.embeddings, metadata := d.metadata,
        query_cache := d.query_cache, token_counts := d.token_counts }) ∧
    (∀ e, load_db fs db = .error e → load_db_run fs db = db) := by
  cases hfs : fs (db_path db.name) with
  | none => simp [load_db, load_db_run, hfs]
  | some c =>
    cases c with
    | snapshot d => simp [load_db, load_db_run, hfs]
    | truncated => simp [load_db, load_db_run, hfs]

/-- Witness for C9: a successful load from a present snapshot, and a
NotFound raise on an empty file system that leaves the store unchanged. -/
theorem c9_load_notfound_witness :
    fsWithOld (db_path "kb") = some (.snapshot snapOld) ∧
    load_db fsWithOld (initDB "kb") = Except.ok { initDB "kb" with
      embeddings := snapOld.embeddings, metadata := snapOld.metadata,
      query_cache := snapOld.query_cache, token_counts := snapOld.token_counts } ∧
    load_db (fun _ => none) (initDB "kb") = .error .notFound ∧
    load_db_run (fun _ => none) (initDB "kb") = initDB "kb" :=
  have h3 : load_db (fun _ => none) (initDB "kb") = .error .notFound :=
    (c9_load_notfound (fun _ => none) (initDB "kb")).1.mpr rfl
  ⟨rfl, (c9_load_notfound fsWithOld (initDB "kb")).2.1 snapOld rfl, h3,
   (c9_load_notfound (fun _ => none) (initDB "kb")).2.2 .notFound h3⟩

/-- Claim C10: `search` on a store whose embeddings sequence is empty
raises the `ValueError` (it does not return an empty result list), and the
store state is unchanged by the failed call. -/
theorem c10_search_empty (embedQ : String → Vec) (db : ContextualVectorDB)
    (q : String) (k : Nat) (h : db.embeddings = []) :
    search embedQ db q k = .error .noData ∧ searchRun embedQ db q k = db := by
  constructor
  · rw [search, if_pos h]
  · unfold searchRun
    rw [search, if_pos h]

/-- Witness for C10 on a fresh (empty) store. -/
theorem c10_search_empty_witness :
    (initDB "kb").embeddings = [] ∧
    search (fun _ => [0]) (initDB "kb") "q" 5 = .error .noData ∧
    searchRun (fun _ => [0]) (initDB "kb") "q" 5 = initDB "kb" :=
  ⟨rfl, (c10_search_empty (fun _ => [0]) (initDB "kb") "q" 5 rfl).1,
   (c10_search_empty (fun _ => [0]) (initDB "kb") "q" 5 rfl).2⟩

end VFKnowledgeFlow
